import Mathlib

/-!
# Admission webhook: the request pipeline of `webhook.go`

A shallow embedding of `WebhookServer.validate`, `WebhookServer.mutate` and
`WebhookServer.serve`.

* Go pointers that may be nil are `Option`; a nil dereference is the error
  `Fault.nilDereference` of `Except`.
* Byte slices are lists of bytes, the nil slice being the empty list.
* The functions the handler calls in other packages (`json.Unmarshal`,
  `deserializer.Decode`, `json.Marshal`) are fields of `Library`; every
  statement below holds for all of them.
* `http.ResponseWriter` is a record holding the status line and the body sent
  so far, following `net/http`: the first `WriteHeader` wins and `Write` sends
  status 200 when no header was sent before.
* Logging (`glog`, `klog`, `fmt.Println`) has no effect on the response and is
  left out.
* `serve` records the calls it makes, in order, so that statements about what
  is and is not invoked can be made.
-/

namespace Webhook

/-! ## Data model -/

/-- A Go byte slice; nil and the empty slice are both the empty list. -/
abbrev Bytes := List UInt8

/-- The conversion of a Go string to a byte slice: its UTF-8 encoding. -/
def bytesOfString (s : String) : Bytes :=
  s.data.flatMap String.utf8EncodeChar

/-- The part of `runtime.RawExtension` that is read: the raw serialized object. -/
structure RawExtension where
  Raw : Bytes := []
  deriving DecidableEq, Repr

/-- The fields of `v1beta1.AdmissionRequest` that the handler reads. -/
structure AdmissionRequest where
  UID : String := ""
  Object : RawExtension := {}
  deriving DecidableEq, Repr

/-- The field of `metav1.Status` that the handler sets. -/
structure Status where
  Message : String := ""
  deriving DecidableEq, Repr

/-- The type `v1beta1.PatchType`; the handler only uses `PatchTypeJSONPatch`. -/
inductive PatchType where
  | JSONPatch
  deriving DecidableEq, Repr

/-- The type `v1beta1.AdmissionResponse`; the defaults are Go's zero values. -/
structure AdmissionResponse where
  UID : String := ""
  Allowed : Bool := false
  Result : Option Status := none
  Patch : Bytes := []
  PatchType : Option PatchType := none
  deriving DecidableEq, Repr

/-- The type `v1beta1.AdmissionReview`: both fields are pointers. -/
structure AdmissionReview where
  Request : Option AdmissionRequest := none
  Response : Option AdmissionResponse := none
  deriving DecidableEq, Repr

/-- The fields of `metav1.ObjectMeta` that are read. A Go map is a list of
key and value pairs, and `none` is the nil map. -/
structure ObjectMeta where
  Name : String := ""
  Annotations : Option (List (String × String)) := none
  deriving DecidableEq, Repr

/-- The part of `appsv1.Deployment` that is read. -/
structure Deployment where
  ObjectMeta : ObjectMeta := {}
  deriving DecidableEq, Repr

/-- The method `GetName` of `ObjectMeta`. -/
def Deployment.GetName (d : Deployment) : String :=
  d.ObjectMeta.Name

/-- The method `GetAnnotations` of `ObjectMeta`. -/
def Deployment.GetAnnotations (d : Deployment) : Option (List (String × String)) :=
  d.ObjectMeta.Annotations

/-- Indexing a Go `map[string]string`: the value stored under the key, and the
empty string when the key is absent or the map is nil. -/
def mapIndex (m : Option (List (String × String))) (key : String) : String :=
  match m with
  | none => ""
  | some entries => (entries.lookup key).getD ""

/-- A run-time fault of the Go program. -/
inductive Fault where
  | nilDereference
  deriving DecidableEq, Repr

/-- The functions of other packages that the handler calls. -/
structure Library where
  /-- The call `json.Unmarshal(raw, &deployment)`: the deployment, or the error text. -/
  unmarshalDeployment : Bytes → Except String Deployment
  /-- The call `deserializer.Decode(body, nil, &ar)`: the content of `ar` after
  the call and the error text, if any. On an error `ar` may be filled in part. -/
  decode : Bytes → AdmissionReview × Option String
  /-- The call `json.Marshal(admissionReview)`: the bytes, or the error text. -/
  marshal : AdmissionReview → Except String Bytes

/-! ## Constants -/

def prodKey : String := "tunde.meetup.com/prod"

def setProdLabelPatch : String :=
  "[\n         \x7b \"op\": \"add\", \"path\": \"/metadata/labels/env\", \"value\": \"prod\" \x7d\n     ]"

/-! ## strings.ToLower -/

/-- The lower-case form of one rune, on the ASCII range as `unicode.ToLower`
does it. Runes outside `A`..`Z` are kept: the case tables of Unicode send no
rune outside ASCII to one of the letters of the word true, so a comparison of
the result with that word is not affected. -/
def toLowerRune (c : Char) : Char :=
  if 65 ≤ c.toNat ∧ c.toNat ≤ 90 then Char.ofNat (c.toNat + 32) else c

/-- The function `strings.ToLower`, rune by rune. -/
def ToLower (s : String) : String :=
  ⟨s.data.map toLowerRune⟩

/-! ## validate and mutate -/

/-- The method `WebhookServer.validate` (lines 56 to 85). -/
def validate (lib : Library) (ar : AdmissionReview) : Except Fault AdmissionResponse :=
  match ar.Request with
  | none => .error .nilDereference
  | some req =>
    match lib.unmarshalDeployment req.Object.Raw with
    | .error err => .ok { Result := some { Message := err } }
    | .ok deployment =>
      let reviewResponse : AdmissionResponse := {}
      if deployment.ObjectMeta.Name ≠ "dallas-demo" then
        let reviewResponse := { reviewResponse with Allowed := false }
        let reviewResponse := { reviewResponse with
          Result := some { Message := "Name has to be dallas demo or you go home" } }
        .ok reviewResponse
      else
        let reviewResponse := { reviewResponse with Allowed := true }
        .ok reviewResponse

/-- The method `WebhookServer.mutate` (lines 88 to 125). -/
def mutate (lib : Library) (ar : AdmissionReview) : Except Fault AdmissionResponse :=
  match ar.Request with
  | none => .error .nilDereference
  | some req =>
    match lib.unmarshalDeployment req.Object.Raw with
    | .error err => .ok { Result := some { Message := err } }
    | .ok deployment =>
      let reviewResponse : AdmissionResponse := {}
      let annotations := deployment.GetAnnotations
      let statusProd := mapIndex annotations prodKey
      let reviewResponse :=
        if ToLower statusProd = "true" then
          let reviewResponse := { reviewResponse with Patch := bytesOfString setProdLabelPatch }
          let reviewResponse := { reviewResponse with Allowed := true }
          { reviewResponse with Result := some { Message := "demo gods are with you" } }
        else
          { reviewResponse with Allowed := false }
      let pt := PatchType.JSONPatch
      .ok { reviewResponse with PatchType := some pt }

/-! ## The HTTP side -/

/-- The type `http.Header`: a map from a header name to its values. -/
abbrev Header := List (String × List String)

/-- The method `Header.Get` for a key that is already in canonical form: the
first value stored under the key, or the empty string. -/
def Header.Get (h : Header) (key : String) : String :=
  match h.lookup key with
  | some (v :: _) => v
  | _ => ""

/-- The part of `url.URL` that is read. -/
structure URL where
  Path : String := ""
  deriving DecidableEq, Repr

/-- The part of `http.Request` that is read. `Body` is `none` for a nil body
and otherwise what `ioutil.ReadAll` gives: the data, or an error. -/
structure Request where
  Body : Option (Except String Bytes) := none
  Header : Header := []
  URL : URL := {}

/-- The state of an `http.ResponseWriter`: the status sent, if the header has
been sent, the body sent so far, and the error that the connection gives on a
write, if it is broken. -/
structure ResponseWriter where
  status : Option Nat := none
  body : Bytes := []
  broken : Option String := none
  deriving DecidableEq, Repr

/-- The method `WriteHeader`: only the first call sends a header. -/
def ResponseWriter.WriteHeader (w : ResponseWriter) (code : Nat) : ResponseWriter :=
  match w.status with
  | some _ => w
  | none => { w with status := some code }

/-- The method `Write`: sends the header with status 200 if none was sent, then
the data; the result is the new state and the error, if any. Nothing is sent,
and no error arises, for empty data. -/
def ResponseWriter.Write (w : ResponseWriter) (data : Bytes) : ResponseWriter × Option String :=
  let w := w.WriteHeader 200
  if data.length = 0 then (w, none)
  else
    match w.broken with
    | some e => (w, some e)
    | none => ({ w with body := w.body ++ data }, none)

/-- The function `http.Error`: sends the header with the code and then the
message and a newline as the body. -/
def httpError (w : ResponseWriter) (error : String) (code : Nat) : ResponseWriter :=
  ((w.WriteHeader code).Write (bytesOfString (error ++ "\n"))).1

/-- A call made by `serve`, in the order of the source. -/
inductive Call where
  | Decode (body : Bytes)
  | mutate (ar : AdmissionReview)
  | validate (ar : AdmissionReview)
  | Marshal (v : AdmissionReview)
  | Error (error : String) (code : Nat)
  | Write (data : Bytes)
  deriving DecidableEq, Repr

/-- What a run of `serve` leaves behind: the response writer, the calls made,
the outbound envelope `admissionReview` once it is assembled, and the fault
that ended the run, if any. -/
structure Served where
  w : ResponseWriter
  calls : List Call
  admissionReview : Option AdmissionReview
  fault : Option Fault
  deriving DecidableEq, Repr

/-- Lines 129 to 134 of `serve`: the body that was read, nil when there is no
body or when reading it fails. -/
def readBody (r : Request) : Bytes :=
  match r.Body with
  | some (.ok data) => data
  | _ => []

/-- The response built when the envelope does not decode (lines 153 to 157). -/
def decodeFailure (err : String) : AdmissionResponse :=
  { Result := some { Message := err } }

/-- Lines 149 to 165 of `serve`: the value of `admissionResponse` after the
decode and the routing by path, with the calls made; a fault of `mutate` or
`validate` ends the run. -/
def route (lib : Library) (path : String) (ar : AdmissionReview) (decodeErr : Option String) :
    Except Fault (Option AdmissionResponse) × List Call :=
  match decodeErr with
  | some err => (.ok (some (decodeFailure err)), [])
  | none =>
    if path = "/mutate" then
      ((mutate lib ar).map some, [.mutate ar])
    else if path = "/validate" then
      ((validate lib ar).map some, [.validate ar])
    else
      (.ok none, [])

/-- Lines 167 to 173 of `serve`: the outbound envelope. -/
def assemble (ar : AdmissionReview) (admissionResponse : Option AdmissionResponse) :
    AdmissionReview :=
  let admissionReview : AdmissionReview := {}
  match admissionResponse with
  | some response =>
    match ar.Request with
    | some req => { admissionReview with Response := some { response with UID := req.UID } }
    | none => { admissionReview with Response := some response }
  | none => admissionReview

/-- Lines 181 to 184 of `serve`: the write of `resp`, and the error reply when
the write fails. -/
def writeResponse (w : ResponseWriter) (resp : Bytes) : ResponseWriter × List Call :=
  match w.Write resp with
  | (w, none) => (w, [.Write resp])
  | (w, some err) =>
    (httpError w ("could not write response: " ++ err) 500,
      [.Write resp, .Error ("could not write response: " ++ err) 500])

/-- Lines 175 to 184 of `serve`: the encoding of the envelope and the write.
After an encoding error the error reply is sent and the run goes on to the
write, with `resp` nil: there is no return in that branch. -/
def encodeAndWrite (lib : Library) (w : ResponseWriter) (admissionReview : AdmissionReview) :
    ResponseWriter × List Call :=
  match lib.marshal admissionReview with
  | .error err =>
    let w := httpError w ("could not encode response: " ++ err) 500
    let (w, calls) := writeResponse w []
    (w, [.Marshal admissionReview, .Error ("could not encode response: " ++ err) 500] ++ calls)
  | .ok resp =>
    let (w, calls) := writeResponse w resp
    (w, [.Marshal admissionReview] ++ calls)

/-- The method `WebhookServer.serve` (lines 128 to 185). -/
def serve (lib : Library) (w : ResponseWriter) (r : Request) : Served :=
  let body := readBody r
  if body.length = 0 then
    { w := httpError w "empty body" 400
      calls := [.Error "empty body" 400]
      admissionReview := none
      fault := none }
  else
    let contentType := r.Header.Get "Content-Type"
    if contentType ≠ "application/json" then
      { w := httpError w "invalid Content-Type, expect `application/json`" 415
        calls := [.Error "invalid Content-Type, expect `application/json`" 415]
        admissionReview := none
        fault := none }
    else
      let (ar, decodeErr) := lib.decode body
      match route lib r.URL.Path ar decodeErr with
      | (.error fault, calls) =>
        { w := w
          calls := [.Decode body] ++ calls
          admissionReview := none
          fault := some fault }
      | (.ok admissionResponse, calls) =>
        let admissionReview := assemble ar admissionResponse
        let (w, calls2) := encodeAndWrite lib w admissionReview
        { w := w
          calls := [.Decode body] ++ calls ++ calls2
          admissionReview := some admissionReview
          fault := none }

/-! ## Reading a JSON document

A reader for JSON text, used to say what a patch is as a JSON document. -/

/-- A JSON document. Strings and number literals are kept as their bytes. -/
inductive JSON where
  | null
  | bool (b : Bool)
  | num (literal : Bytes)
  | str (s : Bytes)
  | arr (items : List JSON)
  | obj (members : List (Bytes × JSON))

/-- Drops leading JSON white space: space, line feed, carriage return, tab. -/
def skipWS : Bytes → Bytes
  | [] => []
  | b :: rest => if b = 32 ∨ b = 10 ∨ b = 13 ∨ b = 9 then skipWS rest else b :: rest

/-- Reads the rest of a JSON string, after its opening quote, up to the closing
quote; the escapes of one character are read, the escape with four hex digits
is not. -/
def readString : Bytes → Bytes → Option (Bytes × Bytes)
  | [], _ => none
  | 34 :: rest, acc => some (acc.reverse, rest)
  | 92 :: 34 :: rest, acc => readString rest (34 :: acc)
  | 92 :: 92 :: rest, acc => readString rest (92 :: acc)
  | 92 :: 47 :: rest, acc => readString rest (47 :: acc)
  | 92 :: 110 :: rest, acc => readString rest (10 :: acc)
  | 92 :: 116 :: rest, acc => readString rest (9 :: acc)
  | 92 :: 114 :: rest, acc => readString rest (13 :: acc)
  | 92 :: _, _ => none
  | b :: rest, acc => if b < 32 then none else readString rest (b :: acc)

/-- Splits off the longest prefix of bytes that may stand in a number literal. -/
def readNumber : Bytes → Bytes → Bytes × Bytes
  | [], acc => (acc.reverse, [])
  | b :: rest, acc =>
    if (48 ≤ b ∧ b ≤ 57) ∨ b = 45 ∨ b = 43 ∨ b = 46 ∨ b = 101 ∨ b = 69 then readNumber rest (b :: acc)
    else (acc.reverse, b :: rest)

mutual
/-- Reads one JSON value, with the white space before it. -/
def readValue : Nat → Bytes → Option (JSON × Bytes)
  | 0, _ => none
  | fuel + 1, input =>
    match skipWS input with
    | 110 :: 117 :: 108 :: 108 :: rest => some (.null, rest)
    | 116 :: 114 :: 117 :: 101 :: rest => some (.bool true, rest)
    | 102 :: 97 :: 108 :: 115 :: 101 :: rest => some (.bool false, rest)
    | 34 :: rest => (readString rest []).map fun (s, rest) => (.str s, rest)
    | 91 :: rest =>
      match skipWS rest with
      | 93 :: rest => some (.arr [], rest)
      | rest => (readItems fuel rest).map fun (items, rest) => (.arr items, rest)
    | 123 :: rest =>
      match skipWS rest with
      | 125 :: rest => some (.obj [], rest)
      | rest => (readMembers fuel rest).map fun (members, rest) => (.obj members, rest)
    | b :: rest =>
      if (48 ≤ b ∧ b ≤ 57) ∨ b = 45 then
        let (literal, rest) := readNumber (b :: rest) []
        some (.num literal, rest)
      else none
    | [] => none
/-- Reads the items of a non-empty array, up to the closing bracket. -/
def readItems : Nat → Bytes → Option (List JSON × Bytes)
  | 0, _ => none
  | fuel + 1, input =>
    match readValue fuel input with
    | none => none
    | some (item, rest) =>
      match skipWS rest with
      | 44 :: rest => (readItems fuel rest).map fun (items, rest) => (item :: items, rest)
      | 93 :: rest => some ([item], rest)
      | _ => none
/-- Reads the members of a non-empty object, up to the closing brace. -/
def readMembers : Nat → Bytes → Option (List (Bytes × JSON) × Bytes)
  | 0, _ => none
  | fuel + 1, input =>
    match skipWS input with
    | 34 :: rest =>
      match readString rest [] with
      | none => none
      | some (key, rest) =>
        match skipWS rest with
        | 58 :: rest =>
          match readValue fuel rest with
          | none => none
          | some (value, rest) =>
            match skipWS rest with
            | 44 :: rest => (readMembers fuel rest).map fun (members, rest) => ((key, value) :: members, rest)
            | 125 :: rest => some ([(key, value)], rest)
            | _ => none
        | _ => none
    | _ => none
end

/-- Reads a whole JSON document; the length of the input bounds the depth of
the reading. -/
def readJSON (input : Bytes) : Option JSON :=
  match readValue (input.length + 1) input with
  | some (v, rest) => if (skipWS rest).length = 0 then some v else none
  | none => none

/-! ## The words of the specification -/

/-- The fixed patch payload as the specification writes it. -/
def specPatchPayload : String :=
  "[\x7b\"op\":\"add\",\"path\":\"/metadata/labels/env\",\"value\":\"prod\"\x7d]"

/-- The patch as a JSON document: a list of exactly one operation, with op
`add`, path `/metadata/labels/env` and value `prod`. -/
def addLabelPatch : JSON :=
  .arr [.obj [(bytesOfString "op", .str (bytesOfString "add")),
              (bytesOfString "path", .str (bytesOfString "/metadata/labels/env")),
              (bytesOfString "value", .str (bytesOfString "prod"))]]

/-- An ASCII letter. -/
def isLetter (c : Char) : Bool :=
  (65 ≤ c.toNat ∧ c.toNat ≤ 90) ∨ (97 ≤ c.toNat ∧ c.toNat ≤ 122)

/-- Two characters are equal, or are the two cases of one ASCII letter. -/
def sameLetter (x y : Char) : Bool :=
  x = y ∨ (isLetter x ∧ isLetter y ∧ (x.toNat + 32 = y.toNat ∨ y.toNat + 32 = x.toNat))

/-- Case-insensitive equality of two strings: the same length, and the same
letter up to case at every position. -/
def equalIgnoringCase (a b : String) : Bool :=
  a.data.length = b.data.length ∧ ∀ p ∈ a.data.zip b.data, sameLetter p.1 p.2

/-- The patch invariant of the data model: a response with a non-empty patch
has its patch type set to JSONPatch and is allowed. -/
def PatchInvariant (resp : AdmissionResponse) : Prop :=
  resp.Patch ≠ [] → resp.PatchType = some PatchType.JSONPatch ∧ resp.Allowed = true

/-! ## Sample inputs -/

/-- A deployment named `dallas-demo` with the annotation set to `TRUE`. -/
def prodDeployment : Deployment :=
  { ObjectMeta := { Name := "dallas-demo", Annotations := some [(prodKey, "TRUE")] } }

/-- The serialized form of `prodDeployment`. -/
def prodObject : Bytes :=
  bytesOfString "\x7b\"metadata\":\x7b\"name\":\"dallas-demo\",\"annotations\":\x7b\"tunde.meetup.com/prod\":\"TRUE\"\x7d\x7d\x7d"

/-- A deployment named `web` without annotations. -/
def plainDeployment : Deployment :=
  { ObjectMeta := { Name := "web" } }

/-- The serialized form of `plainDeployment`. -/
def plainObject : Bytes :=
  bytesOfString "\x7b\"metadata\":\x7b\"name\":\"web\"\x7d\x7d"

/-- An object that is not a deployment: a JSON text that ends too early. -/
def brokenObject : Bytes :=
  bytesOfString "\x7b\"metadata\":"

/-- An admission review with a request of UID `X` for the given object. -/
def reviewOf (raw : Bytes) : AdmissionReview :=
  { Request := some { UID := "X", Object := { Raw := raw } } }

/-- A body holding the review of `plainObject`. -/
def plainBody : Bytes :=
  bytesOfString "\x7b\"request\":\x7b\"uid\":\"X\",\"object\":\x7b\"metadata\":\x7b\"name\":\"web\"\x7d\x7d\x7d\x7d"

/-- A body holding the review of `prodObject`. -/
def prodBody : Bytes :=
  bytesOfString "\x7b\"request\":\x7b\"uid\":\"X\",\"object\":\x7b\"metadata\":\x7b\"name\":\"dallas-demo\",\"annotations\":\x7b\"tunde.meetup.com/prod\":\"TRUE\"\x7d\x7d\x7d\x7d\x7d"

/-- A body that is not JSON. -/
def malformedBody : Bytes :=
  bytesOfString "not json"

/-- A library that knows the sample objects and bodies and gives an error on
every other input; its encoder writes the UID of the response only. -/
def sampleLibrary : Library where
  unmarshalDeployment raw :=
    if raw = prodObject then .ok prodDeployment
    else if raw = plainObject then .ok plainDeployment
    else .error "unexpected end of JSON input"
  decode body :=
    if body = plainBody then (reviewOf plainObject, none)
    else if body = prodBody then (reviewOf prodObject, none)
    else ({}, some "couldn't get version/kind; json parse error")
  marshal v :=
    match v.Response with
    | some resp => .ok (bytesOfString ("\x7b\"response\":\x7b\"uid\":\"" ++ resp.UID ++ "\"\x7d\x7d"))
    | none => .ok (bytesOfString "\x7b\x7d")

/-- The sample library with an encoder that fails. -/
def failingEncoder : Library :=
  { sampleLibrary with marshal := fun _ => .error "json: unsupported value" }

/-- A request with the given body, content type and path. -/
def requestOf (body : Bytes) (contentType path : String) : Request :=
  { Body := some (.ok body), Header := [("Content-Type", [contentType])], URL := { Path := path } }

/-- A body holding a review without a request. -/
def bareBody : Bytes :=
  bytesOfString "\x7b\"kind\":\"AdmissionReview\",\"apiVersion\":\"admission.k8s.io/v1beta1\"\x7d"

/-- The sample library with a decoder that also knows `bareBody`, which
decodes to a review whose request is nil. -/
def bareLibrary : Library :=
  { sampleLibrary with
    decode := fun body => if body = bareBody then ({}, none) else sampleLibrary.decode body }

/-! ## Auxiliary facts -/

theorem toNat_ofNat_of_lt (n : Nat) (h : n < 55296) : (Char.ofNat n).toNat = n := by
  have hv : n.isValidChar := Or.inl h
  simp only [Char.ofNat, hv, Char.ofNatAux, Char.toNat, dite_true]
  rfl

theorem char_eq_of_toNat_eq {a b : Char} (h : a.toNat = b.toNat) : a = b := by
  rw [← Char.ofNat_toNat a, ← Char.ofNat_toNat b, h]

/-- Lowering a rune gives a lower-case letter exactly for the two cases of it. -/
theorem toLowerRune_eq_iff (c t : Char) (ht : 97 ≤ t.toNat ∧ t.toNat ≤ 122) :
    toLowerRune c = t ↔ sameLetter c t = true := by
  unfold toLowerRune sameLetter isLetter
  by_cases hu : 65 ≤ c.toNat ∧ c.toNat ≤ 90
  · rw [if_pos hu]
    have hne : c ≠ t := fun h => by rw [h] at hu; omega
    constructor
    · intro h
      have h2 := congrArg Char.toNat h
      rw [toNat_ofNat_of_lt _ (by omega)] at h2
      simp [hne, hu, ht, h2]
    · intro h
      simp [hne, hu, ht] at h
      have h2 : c.toNat + 32 = t.toNat := by omega
      apply char_eq_of_toNat_eq
      rw [toNat_ofNat_of_lt _ (by omega)]
      exact h2
  · rw [if_neg hu]
    constructor
    · intro h; simp [h]
    · intro h
      simp at h
      rcases h with h | ⟨h1, h2, h3⟩
      · exact h
      · exfalso; omega

/-- The comparison made by `mutate` is case-insensitive equality with `true`. -/
theorem toLower_eq_true_iff (s : String) :
    ToLower s = "true" ↔ equalIgnoringCase s "true" = true := by
  obtain ⟨l⟩ := s
  have ht : (97 : Nat) ≤ ('t' : Char).toNat ∧ ('t' : Char).toNat ≤ 122 := by decide
  have hr : (97 : Nat) ≤ ('r' : Char).toNat ∧ ('r' : Char).toNat ≤ 122 := by decide
  have hu : (97 : Nat) ≤ ('u' : Char).toNat ∧ ('u' : Char).toNat ≤ 122 := by decide
  have he : (97 : Nat) ≤ ('e' : Char).toNat ∧ ('e' : Char).toNat ≤ 122 := by decide
  show (⟨l.map toLowerRune⟩ : String) = ⟨['t', 'r', 'u', 'e']⟩ ↔ _
  rw [String.ext_iff]
  rcases l with _ | ⟨a, _ | ⟨b, _ | ⟨c, _ | ⟨d, _ | ⟨e, l⟩⟩⟩⟩⟩ <;>
    simp [equalIgnoringCase, toLowerRune_eq_iff _ _ ht, toLowerRune_eq_iff _ _ hr,
      toLowerRune_eq_iff _ _ hu, toLowerRune_eq_iff _ _ he]

/-- The patch constant is not empty. -/
theorem bytesOfString_patch_ne_nil : bytesOfString setProdLabelPatch ≠ [] := by
  decide

/-- The result of `validate` when the object does not unmarshal. -/
theorem validate_of_unmarshal_error (lib : Library) (ar : AdmissionReview)
    (req : AdmissionRequest) (err : String) (hreq : ar.Request = some req)
    (hobj : lib.unmarshalDeployment req.Object.Raw = .error err) :
    validate lib ar = .ok { Result := some { Message := err } } := by
  simp only [validate, hreq, hobj]

/-- The result of `validate` when the object unmarshals. -/
theorem validate_of_unmarshal_ok (lib : Library) (ar : AdmissionReview)
    (req : AdmissionRequest) (deployment : Deployment) (hreq : ar.Request = some req)
    (hobj : lib.unmarshalDeployment req.Object.Raw = .ok deployment) :
    validate lib ar = .ok (if deployment.ObjectMeta.Name ≠ "dallas-demo" then
        { Allowed := false, Result := some { Message := "Name has to be dallas demo or you go home" } }
      else { Allowed := true }) := by
  simp only [validate, hreq, hobj]
  split <;> rfl

/-- The result of `mutate` when the object does not unmarshal. -/
theorem mutate_of_unmarshal_error (lib : Library) (ar : AdmissionReview)
    (req : AdmissionRequest) (err : String) (hreq : ar.Request = some req)
    (hobj : lib.unmarshalDeployment req.Object.Raw = .error err) :
    mutate lib ar = .ok { Result := some { Message := err } } := by
  simp only [mutate, hreq, hobj]

/-- The result of `mutate` when the object unmarshals. -/
theorem mutate_of_unmarshal_ok (lib : Library) (ar : AdmissionReview)
    (req : AdmissionRequest) (deployment : Deployment) (hreq : ar.Request = some req)
    (hobj : lib.unmarshalDeployment req.Object.Raw = .ok deployment) :
    mutate lib ar = .ok (if ToLower (mapIndex deployment.GetAnnotations prodKey) = "true" then
        { Allowed := true, Result := some { Message := "demo gods are with you" },
          Patch := bytesOfString setProdLabelPatch, PatchType := some PatchType.JSONPatch }
      else { Allowed := false, PatchType := some PatchType.JSONPatch }) := by
  simp only [mutate, hreq, hobj]
  split <;> rfl

/-- On a review with a request `validate` returns a response. -/
theorem validate_returns (lib : Library) (ar : AdmissionReview) (req : AdmissionRequest)
    (hreq : ar.Request = some req) : ∃ resp, validate lib ar = .ok resp := by
  cases hobj : lib.unmarshalDeployment req.Object.Raw with
  | error err => exact ⟨_, validate_of_unmarshal_error lib ar req err hreq hobj⟩
  | ok deployment => exact ⟨_, validate_of_unmarshal_ok lib ar req deployment hreq hobj⟩

/-- On a review with a request `mutate` returns a response. -/
theorem mutate_returns (lib : Library) (ar : AdmissionReview) (req : AdmissionRequest)
    (hreq : ar.Request = some req) : ∃ resp, mutate lib ar = .ok resp := by
  cases hobj : lib.unmarshalDeployment req.Object.Raw with
  | error err => exact ⟨_, mutate_of_unmarshal_error lib ar req err hreq hobj⟩
  | ok deployment => exact ⟨_, mutate_of_unmarshal_ok lib ar req deployment hreq hobj⟩

/-- The envelope that `serve` assembles when the transport checks pass and the
routing ends without a fault. -/
theorem serve_admissionReview (lib : Library) (w : ResponseWriter) (r : Request) (data : Bytes)
    (ar : AdmissionReview) (decodeErr : Option String)
    (admissionResponse : Option AdmissionResponse) (calls : List Call)
    (hbody : r.Body = some (.ok data)) (hne : data ≠ [])
    (hct : r.Header.Get "Content-Type" = "application/json")
    (hdec : lib.decode data = (ar, decodeErr))
    (hroute : route lib r.URL.Path ar decodeErr = (.ok admissionResponse, calls)) :
    serve lib w r =
      { w := (encodeAndWrite lib w (assemble ar admissionResponse)).1
        calls := [.Decode data] ++ calls ++ (encodeAndWrite lib w (assemble ar admissionResponse)).2
        admissionReview := some (assemble ar admissionResponse)
        fault := none } := by
  have hlen : ¬ data.length = 0 := fun h => hne (List.length_eq_zero.mp h)
  simp only [serve, readBody, hbody, hlen, hct, hdec, hroute, if_false, ne_eq, not_true_eq_false]

/-- A response of `validate` has no patch and no patch type. -/
theorem validate_patch_nil (lib : Library) (ar : AdmissionReview) (resp : AdmissionResponse)
    (h : validate lib ar = .ok resp) : resp.Patch = [] ∧ resp.PatchType = none := by
  cases hreq : ar.Request with
  | none => simp [validate, hreq] at h
  | some req =>
    cases hobj : lib.unmarshalDeployment req.Object.Raw with
    | error err =>
      rw [validate_of_unmarshal_error lib ar req err hreq hobj] at h
      cases h
      exact ⟨rfl, rfl⟩
    | ok deployment =>
      rw [validate_of_unmarshal_ok lib ar req deployment hreq hobj] at h
      cases h
      split <;> exact ⟨rfl, rfl⟩

/-- A response of `mutate` has no patch, or is allowed with patch type JSONPatch. -/
theorem mutate_patch_cases (lib : Library) (ar : AdmissionReview) (resp : AdmissionResponse)
    (h : mutate lib ar = .ok resp) :
    resp.Patch = [] ∨ (resp.PatchType = some PatchType.JSONPatch ∧ resp.Allowed = true) := by
  cases hreq : ar.Request with
  | none => simp [mutate, hreq] at h
  | some req =>
    cases hobj : lib.unmarshalDeployment req.Object.Raw with
    | error err =>
      rw [mutate_of_unmarshal_error lib ar req err hreq hobj] at h
      cases h
      exact Or.inl rfl
    | ok deployment =>
      rw [mutate_of_unmarshal_ok lib ar req deployment hreq hobj] at h
      cases h
      split
      · exact Or.inr ⟨rfl, rfl⟩
      · exact Or.inl rfl

/-- The response that `route` yields comes from `mutate`, from `validate` or
from the decode failure branch. -/
theorem route_origin (lib : Library) (path : String) (ar : AdmissionReview)
    (decodeErr : Option String) (resp : AdmissionResponse) (calls : List Call)
    (h : route lib path ar decodeErr = (.ok (some resp), calls)) :
    mutate lib ar = .ok resp ∨ validate lib ar = .ok resp ∨ ∃ err, resp = decodeFailure err := by
  unfold route at h
  cases decodeErr with
  | some err =>
    simp only [Prod.mk.injEq, Except.ok.injEq, Option.some.injEq] at h
    exact Or.inr (Or.inr ⟨err, h.1.symm⟩)
  | none =>
    simp only at h
    split at h
    · cases hm : mutate lib ar with
      | error f => simp [hm, Except.map] at h
      | ok resp0 =>
        simp only [hm, Except.map, Prod.mk.injEq, Except.ok.injEq, Option.some.injEq] at h
        exact Or.inl (by rw [h.1])
    · split at h
      · cases hv : validate lib ar with
        | error f => simp [hv, Except.map] at h
        | ok resp0 =>
          simp only [hv, Except.map, Prod.mk.injEq, Except.ok.injEq, Option.some.injEq] at h
          exact Or.inr (Or.inl (by rw [h.1]))
      · simp at h

/-- The response in the envelope is the routed response, up to its UID. -/
theorem assemble_response (ar : AdmissionReview) (admissionResponse : Option AdmissionResponse)
    (resp : AdmissionResponse) (h : (assemble ar admissionResponse).Response = some resp) :
    ∃ resp0, admissionResponse = some resp0 ∧ resp.Allowed = resp0.Allowed ∧
      resp.Result = resp0.Result ∧ resp.Patch = resp0.Patch ∧
      resp.PatchType = resp0.PatchType := by
  unfold assemble at h
  cases admissionResponse with
  | none => simp at h
  | some resp0 =>
    cases hreq : ar.Request with
    | none =>
      simp only [hreq, Option.some.injEq] at h
      exact ⟨resp0, rfl, by rw [← h]; exact ⟨rfl, rfl, rfl, rfl⟩⟩
    | some req =>
      simp only [hreq, Option.some.injEq] at h
      exact ⟨resp0, rfl, by rw [← h]; exact ⟨rfl, rfl, rfl, rfl⟩⟩

/-- Every response in an envelope of `serve` comes, up to its UID, from
`mutate`, from `validate` or from the decode failure branch. -/
theorem serve_response_origin (lib : Library) (w : ResponseWriter) (r : Request)
    (env : AdmissionReview) (resp : AdmissionResponse)
    (henv : (serve lib w r).admissionReview = some env) (hresp : env.Response = some resp) :
    ∃ ar resp0, (mutate lib ar = .ok resp0 ∨ validate lib ar = .ok resp0 ∨
        ∃ err, resp0 = decodeFailure err) ∧
      resp.Allowed = resp0.Allowed ∧ resp.Result = resp0.Result ∧
      resp.Patch = resp0.Patch ∧ resp.PatchType = resp0.PatchType := by
  unfold serve at henv
  simp only at henv
  split at henv
  · simp at henv
  · split at henv
    · simp at henv
    · rcases hdec : lib.decode (readBody r) with ⟨ar, decodeErr⟩
      rcases hroute : route lib r.URL.Path ar decodeErr with ⟨res, calls⟩
      simp only [hdec, hroute] at henv
      cases res with
      | error f => simp at henv
      | ok admissionResponse =>
        simp only [Option.some.injEq] at henv
        rw [← henv] at hresp
        obtain ⟨resp0, hsome, hfields⟩ := assemble_response ar admissionResponse resp hresp
        rw [hsome] at hroute
        exact ⟨ar, resp0, route_origin lib r.URL.Path ar decodeErr resp0 calls hroute, hfields⟩

theorem WriteHeader_status (w : ResponseWriter) (code : Nat) :
    (w.WriteHeader code).status = some (w.status.getD code) := by
  unfold ResponseWriter.WriteHeader
  cases hs : w.status <;> simp [hs]

theorem WriteHeader_body (w : ResponseWriter) (code : Nat) :
    (w.WriteHeader code).body = w.body := by
  unfold ResponseWriter.WriteHeader
  cases hs : w.status <;> simp

theorem WriteHeader_broken (w : ResponseWriter) (code : Nat) :
    (w.WriteHeader code).broken = w.broken := by
  unfold ResponseWriter.WriteHeader
  cases hs : w.status <;> simp

/-- A write sends the header with status 200 unless a header was sent before. -/
theorem Write_status (w : ResponseWriter) (data : Bytes) :
    (w.Write data).1.status = some (w.status.getD 200) := by
  unfold ResponseWriter.Write
  simp only
  split
  · exact WriteHeader_status w 200
  · split
    · exact WriteHeader_status w 200
    · exact WriteHeader_status w 200

/-- A write on a connection that is not broken appends the data and gives no error. -/
theorem Write_of_sound (w : ResponseWriter) (data : Bytes) (hb : w.broken = none) :
    (w.Write data).1.body = w.body ++ data ∧ (w.Write data).2 = none := by
  unfold ResponseWriter.Write
  simp only [WriteHeader_broken, hb]
  split
  · rename_i hlen
    rw [List.length_eq_zero.mp hlen]
    simp [WriteHeader_body]
  · simp [WriteHeader_body]

/-- The status after `http.Error`: the code, unless a header was sent before. -/
theorem httpError_status (w : ResponseWriter) (error : String) (code : Nat) :
    (httpError w error code).status = some (w.status.getD code) := by
  unfold httpError
  rw [Write_status, WriteHeader_status]
  rfl

/-- The write of the response sends status 200 on a writer that has sent no
header, and records the write; it records nothing but writes and error replies. -/
theorem writeResponse_status (w : ResponseWriter) (resp : Bytes) :
    (writeResponse w resp).1.status = some (w.status.getD 200) ∧
      Call.Write resp ∈ (writeResponse w resp).2 ∧
      (∀ c ∈ (writeResponse w resp).2, (∃ d, c = .Write d) ∨ ∃ e k, c = .Error e k) := by
  have hs := Write_status w resp
  unfold writeResponse
  rcases hw : w.Write resp with ⟨w2, _ | err⟩
  · rw [hw] at hs
    refine ⟨hs, by simp, ?_⟩
    intro c hc
    simp only [List.mem_singleton] at hc
    exact Or.inl ⟨_, hc⟩
  · rw [hw] at hs
    simp only at hs
    refine ⟨?_, by simp, ?_⟩
    · simp only [httpError_status, hs, Option.getD_some]
    · intro c hc
      simp only [List.mem_cons, List.mem_singleton, List.not_mem_nil, or_false] at hc
      rcases hc with rfl | rfl
      · exact Or.inl ⟨_, rfl⟩
      · exact Or.inr ⟨_, _, rfl⟩

/-- The write of the response on a connection that is not broken. -/
theorem writeResponse_of_sound (w : ResponseWriter) (resp : Bytes) (hb : w.broken = none) :
    (writeResponse w resp).1.body = w.body ++ resp ∧ (writeResponse w resp).2 = [.Write resp] := by
  have hs := Write_of_sound w resp hb
  unfold writeResponse
  rcases hw : w.Write resp with ⟨w2, _ | err⟩
  · rw [hw] at hs
    exact ⟨hs.1, rfl⟩
  · rw [hw] at hs
    simp at hs

/-- The encoding and the write when the encoder gives bytes. -/
theorem encodeAndWrite_of_marshal_ok (lib : Library) (w : ResponseWriter)
    (admissionReview : AdmissionReview) (resp : Bytes)
    (hm : lib.marshal admissionReview = .ok resp) :
    encodeAndWrite lib w admissionReview =
      ((writeResponse w resp).1, [.Marshal admissionReview] ++ (writeResponse w resp).2) := by
  simp only [encodeAndWrite, hm]

/-- The encoding and the write when the encoder gives an error: the error reply
is followed by the write of the nil `resp`. -/
theorem encodeAndWrite_of_marshal_error (lib : Library) (w : ResponseWriter)
    (admissionReview : AdmissionReview) (err : String)
    (hm : lib.marshal admissionReview = .error err) :
    encodeAndWrite lib w admissionReview =
      ((writeResponse (httpError w ("could not encode response: " ++ err) 500) []).1,
        [.Marshal admissionReview, .Error ("could not encode response: " ++ err) 500] ++
          (writeResponse (httpError w ("could not encode response: " ++ err) 500) []).2) := by
  simp only [encodeAndWrite, hm]

/-- The calls of the encoding and the write are none of `mutate` and `validate`. -/
theorem encodeAndWrite_calls (lib : Library) (w : ResponseWriter)
    (admissionReview : AdmissionReview) :
    ∀ c ∈ (encodeAndWrite lib w admissionReview).2,
      (∀ a, c ≠ .mutate a) ∧ (∀ a, c ≠ .validate a) ∧ (∀ d, c ≠ .Decode d) := by
  intro c hc
  have key : ∀ w2 data, c ∈ (writeResponse w2 data).2 →
      (∀ a, c ≠ .mutate a) ∧ (∀ a, c ≠ .validate a) ∧ (∀ d, c ≠ .Decode d) := by
    intro w2 data hmem
    rcases (writeResponse_status w2 data).2.2 c hmem with ⟨d, rfl⟩ | ⟨e, k, rfl⟩ <;>
      exact ⟨fun _ h => (nomatch h), fun _ h => (nomatch h), fun _ h => (nomatch h)⟩
  cases hm : lib.marshal admissionReview with
  | error err =>
    rw [encodeAndWrite_of_marshal_error lib w admissionReview err hm] at hc
    simp only [List.cons_append, List.nil_append, List.mem_cons] at hc
    rcases hc with rfl | rfl | hc
    · exact ⟨fun _ h => (nomatch h), fun _ h => (nomatch h), fun _ h => (nomatch h)⟩
    · exact ⟨fun _ h => (nomatch h), fun _ h => (nomatch h), fun _ h => (nomatch h)⟩
    · exact key _ _ hc
  | ok resp =>
    rw [encodeAndWrite_of_marshal_ok lib w admissionReview resp hm] at hc
    simp only [List.cons_append, List.nil_append, List.mem_cons] at hc
    rcases hc with rfl | hc
    · exact ⟨fun _ h => (nomatch h), fun _ h => (nomatch h), fun _ h => (nomatch h)⟩
    · exact key _ _ hc

/-- A header that was sent is not sent again. -/
theorem WriteHeader_of_sent (w : ResponseWriter) (code sent : Nat)
    (hw : w.status = some sent) : w.WriteHeader code = w := by
  unfold ResponseWriter.WriteHeader
  simp only [hw]

/-- The write of the nil `resp` after a header was sent leaves the writer as it
is and gives no error. -/
theorem writeResponse_nil_of_sent (w : ResponseWriter) (sent : Nat)
    (hw : w.status = some sent) : writeResponse w [] = (w, [.Write []]) := by
  simp only [writeResponse, ResponseWriter.Write, WriteHeader_of_sent w 200 sent hw,
    List.length_nil, if_true]

/-- The body after `http.Error` on a connection that is not broken. -/
theorem httpError_body_of_sound (w : ResponseWriter) (error : String) (code : Nat)
    (hb : w.broken = none) :
    (httpError w error code).body = w.body ++ bytesOfString (error ++ "\n") := by
  unfold httpError
  rw [(Write_of_sound (w.WriteHeader code) _ (by rw [WriteHeader_broken]; exact hb)).1,
    WriteHeader_body]

/-- A run of `serve` that assembles an envelope goes on to the encoding and
the write of that envelope; before it, the calls are the decode and at most
one call of `mutate` or `validate`. -/
theorem serve_of_envelope (lib : Library) (w : ResponseWriter) (r : Request)
    (env : AdmissionReview) (henv : (serve lib w r).admissionReview = some env) :
    ∃ calls, serve lib w r =
        { w := (encodeAndWrite lib w env).1
          calls := [.Decode (readBody r)] ++ calls ++ (encodeAndWrite lib w env).2
          admissionReview := some env
          fault := none } ∧
      ∀ c ∈ calls, (∃ a, c = .mutate a) ∨ ∃ a, c = .validate a := by
  by_cases hlen : (readBody r).length = 0
  · simp [serve, hlen] at henv
  · by_cases hct : r.Header.Get "Content-Type" = "application/json"
    · rcases hdec : lib.decode (readBody r) with ⟨ar, decodeErr⟩
      rcases hroute : route lib r.URL.Path ar decodeErr with ⟨res, calls⟩
      have hcalls : ∀ c ∈ calls, (∃ a, c = .mutate a) ∨ ∃ a, c = .validate a := by
        intro c hc
        unfold route at hroute
        cases decodeErr with
        | some err =>
          simp only [Prod.mk.injEq] at hroute
          rw [← hroute.2] at hc
          cases hc
        | none =>
          simp only at hroute
          split at hroute
          · simp only [Prod.mk.injEq] at hroute
            rw [← hroute.2, List.mem_singleton] at hc
            exact Or.inl ⟨_, hc⟩
          · split at hroute
            · simp only [Prod.mk.injEq] at hroute
              rw [← hroute.2, List.mem_singleton] at hc
              exact Or.inr ⟨_, hc⟩
            · simp only [Prod.mk.injEq] at hroute
              rw [← hroute.2] at hc
              cases hc
      cases res with
      | error f => simp [serve, hlen, hct, hdec, hroute] at henv
      | ok admissionResponse =>
        have hserve : serve lib w r =
            { w := (encodeAndWrite lib w (assemble ar admissionResponse)).1
              calls := [.Decode (readBody r)] ++ calls ++
                (encodeAndWrite lib w (assemble ar admissionResponse)).2
              admissionReview := some (assemble ar admissionResponse)
              fault := none } := by
          simp only [serve, hlen, hct, hdec, hroute, if_false, ne_eq, not_true_eq_false]
        rw [hserve] at henv
        simp only [Option.some.injEq] at henv
        rw [henv] at hserve
        exact ⟨calls, hserve, hcalls⟩
    · simp [serve, hlen, hct] at henv

/-! ## The claims -/

/-- C1 (as amended): for every request with a non-empty body, content type
`application/json`, a body that decodes to a review whose request has UID X,
and path `/mutate` or `/validate`, the envelope that `serve` assembles has a
response whose UID is X, whatever the decision and whether or not the
embedded object unmarshals. -/
theorem serve_echoes_uid_on_routed_paths (lib : Library) (w : ResponseWriter) (r : Request)
    (data : Bytes) (ar : AdmissionReview) (req : AdmissionRequest)
    (hbody : r.Body = some (.ok data)) (hne : data ≠ [])
    (hct : r.Header.Get "Content-Type" = "application/json")
    (hdec : lib.decode data = (ar, none)) (hreq : ar.Request = some req)
    (hpath : r.URL.Path = "/mutate" ∨ r.URL.Path = "/validate") :
    ∃ resp, (serve lib w r).admissionReview = some { Response := some resp } ∧
      resp.UID = req.UID ∧ (serve lib w r).fault = none := by
  have hroute : ∃ resp calls, route lib r.URL.Path ar none = (.ok (some resp), calls) := by
    rcases hpath with hp | hp
    · obtain ⟨resp, hresp⟩ := mutate_returns lib ar req hreq
      exact ⟨resp, [.mutate ar], by simp [route, hp, hresp, Except.map]⟩
    · obtain ⟨resp, hresp⟩ := validate_returns lib ar req hreq
      exact ⟨resp, [.validate ar], by simp [route, hp, hresp, Except.map]⟩
  obtain ⟨resp, calls, hr⟩ := hroute
  rw [serve_admissionReview lib w r data ar none (some resp) calls hbody hne hct hdec hr]
  exact ⟨{ resp with UID := req.UID }, by simp [assemble, hreq], rfl, rfl⟩

/-- C1, witness: the sample review of UID X sent to `/validate`. -/
theorem serve_echoes_uid_on_routed_paths_witness :
    ∃ resp, (serve sampleLibrary {} (requestOf plainBody "application/json" "/validate")).admissionReview
        = some { Response := some resp } ∧
      resp.UID = "X" ∧
      (serve sampleLibrary {} (requestOf plainBody "application/json" "/validate")).fault = none :=
  serve_echoes_uid_on_routed_paths sampleLibrary {}
    (requestOf plainBody "application/json" "/validate") plainBody (reviewOf plainObject)
    { UID := "X", Object := { Raw := plainObject } } rfl (by decide) (by decide) (by decide) rfl
    (Or.inr rfl)

/-- C1 (as stated) fails: on the path `/other` the sample review of UID X
decodes, and the envelope that `serve` assembles has no response, so no UID. -/
theorem serve_other_path_echoes_no_uid :
    ¬ ∀ (lib : Library) (w : ResponseWriter) (r : Request) (data : Bytes)
        (ar : AdmissionReview) (req : AdmissionRequest),
      r.Body = some (.ok data) → data ≠ [] →
      r.Header.Get "Content-Type" = "application/json" →
      lib.decode data = (ar, none) → ar.Request = some req →
      ∃ env resp, (serve lib w r).admissionReview = some env ∧
        env.Response = some resp ∧ resp.UID = req.UID := by
  intro h
  obtain ⟨env, resp, henv, hresp, _⟩ := h sampleLibrary {}
    (requestOf plainBody "application/json" "/other") plainBody (reviewOf plainObject)
    { UID := "X", Object := { Raw := plainObject } } rfl (by decide) (by decide) (by decide) rfl
  have hserve : (serve sampleLibrary {}
      (requestOf plainBody "application/json" "/other")).admissionReview = some {} := by decide
  rw [hserve] at henv
  cases henv
  cases hresp

/-- C2: for every review whose object unmarshals to a deployment, `validate`
returns a response that is allowed exactly when the name of the deployment is
`dallas-demo`; for every other name the response is not allowed and carries a
result with a non-empty message. -/
theorem validate_allowed_iff_name (lib : Library) (ar : AdmissionReview)
    (req : AdmissionRequest) (deployment : Deployment) (hreq : ar.Request = some req)
    (hobj : lib.unmarshalDeployment req.Object.Raw = .ok deployment) :
    ∃ resp, validate lib ar = .ok resp ∧
      (resp.Allowed = true ↔ deployment.ObjectMeta.Name = "dallas-demo") ∧
      (deployment.ObjectMeta.Name ≠ "dallas-demo" →
        resp.Allowed = false ∧ ∃ st, resp.Result = some st ∧ st.Message ≠ "") := by
  refine ⟨_, validate_of_unmarshal_ok lib ar req deployment hreq hobj, ?_, ?_⟩
  · by_cases hname : deployment.ObjectMeta.Name = "dallas-demo" <;> simp [hname]
  · intro hname
    rw [if_pos hname]
    exact ⟨rfl, _, rfl, by decide⟩

/-- C2, witness: the sample deployment named `web` is not allowed. -/
theorem validate_allowed_iff_name_witness :
    ∃ resp, validate sampleLibrary (reviewOf plainObject) = .ok resp ∧
      (resp.Allowed = true ↔ plainDeployment.ObjectMeta.Name = "dallas-demo") ∧
      (plainDeployment.ObjectMeta.Name ≠ "dallas-demo" →
        resp.Allowed = false ∧ ∃ st, resp.Result = some st ∧ st.Message ≠ "") :=
  validate_allowed_iff_name sampleLibrary (reviewOf plainObject)
    { UID := "X", Object := { Raw := plainObject } } plainDeployment rfl rfl

/-- C3: for every review whose object unmarshals to a deployment, `mutate`
returns a response that is allowed exactly when the value stored under the key
`tunde.meetup.com/prod` in the annotations of the metadata of the deployment,
the empty string when the key or the map is absent, is case-insensitively
equal to `true`. So a nil map, an absent key, the empty string, `false`,
` true` and `yes` give a response that is not allowed, and `true`, `TRUE` and
`True` give one that is allowed. -/
theorem mutate_allowed_iff_annotation (lib : Library) (ar : AdmissionReview)
    (req : AdmissionRequest) (deployment : Deployment) (hreq : ar.Request = some req)
    (hobj : lib.unmarshalDeployment req.Object.Raw = .ok deployment) :
    ∃ resp, mutate lib ar = .ok resp ∧
      (resp.Allowed = true ↔
        equalIgnoringCase (mapIndex deployment.ObjectMeta.Annotations prodKey) "true" = true) ∧
      (deployment.ObjectMeta.Annotations = none → resp.Allowed = false) ∧
      (∀ entries, deployment.ObjectMeta.Annotations = some entries →
        entries.lookup prodKey = none → resp.Allowed = false) ∧
      (∀ entries value, deployment.ObjectMeta.Annotations = some entries →
        entries.lookup prodKey = some value →
        (value ∈ ["", "false", " true", "yes"] → resp.Allowed = false) ∧
        (value ∈ ["true", "TRUE", "True"] → resp.Allowed = true)) := by
  have hget : deployment.GetAnnotations = deployment.ObjectMeta.Annotations := rfl
  have key : ∀ value : String, mapIndex deployment.ObjectMeta.Annotations prodKey = value →
      ((if ToLower (mapIndex deployment.GetAnnotations prodKey) = "true" then
          ({ Allowed := true, Result := some { Message := "demo gods are with you" },
             Patch := bytesOfString setProdLabelPatch,
             PatchType := some PatchType.JSONPatch } : AdmissionResponse)
        else { Allowed := false, PatchType := some PatchType.JSONPatch }).Allowed = true ↔
        ToLower value = "true") := by
    intro value hvalue
    rw [hget, hvalue]
    by_cases h : ToLower value = "true" <;> simp [h]
  refine ⟨_, mutate_of_unmarshal_ok lib ar req deployment hreq hobj, ?_, ?_, ?_, ?_⟩
  · rw [key _ rfl, toLower_eq_true_iff]
  · intro hnone
    have := key "" (by simp [mapIndex, hnone])
    rw [Bool.eq_false_iff]
    exact fun h => absurd (this.mp h) (by decide)
  · intro entries hsome hlookup
    have := key "" (by simp [mapIndex, hsome, hlookup])
    rw [Bool.eq_false_iff]
    exact fun h => absurd (this.mp h) (by decide)
  · intro entries value hsome hlookup
    have := key value (by simp [mapIndex, hsome, hlookup])
    constructor
    · intro hmem
      rw [Bool.eq_false_iff]
      intro h
      have hlow := this.mp h
      simp only [List.mem_cons, List.mem_singleton, List.not_mem_nil, or_false] at hmem
      rcases hmem with rfl | rfl | rfl | rfl <;> exact absurd hlow (by decide)
    · intro hmem
      apply this.mpr
      simp only [List.mem_cons, List.mem_singleton, List.not_mem_nil, or_false] at hmem
      rcases hmem with rfl | rfl | rfl <;> decide

/-- C3, witness: the sample deployment whose metadata holds the annotation
`tunde.meetup.com/prod` with value `TRUE` is allowed by `mutate`. -/
theorem mutate_allowed_iff_annotation_witness :
    prodDeployment.ObjectMeta.Annotations = some [("tunde.meetup.com/prod", "TRUE")] ∧
    ∃ resp, mutate sampleLibrary (reviewOf prodObject) = .ok resp ∧ resp.Allowed = true := by
  obtain ⟨resp, hresp, _, _, _, hvalue⟩ :=
    mutate_allowed_iff_annotation sampleLibrary (reviewOf prodObject)
      { UID := "X", Object := { Raw := prodObject } } prodDeployment rfl rfl
  exact ⟨rfl, resp, hresp,
    (hvalue [("tunde.meetup.com/prod", "TRUE")] "TRUE" rfl (by decide)).2 (by decide)⟩

/-- C4: for every review whose object unmarshals and whose annotation
`tunde.meetup.com/prod` is case-insensitively equal to `true`, the response of
`mutate` has patch type JSONPatch and, as its patch, the bytes of the constant
`setProdLabelPatch`, the same for every such input. As a JSON document this
patch is the fixed payload of the specification: a list of exactly one
operation with op `add`, path `/metadata/labels/env` and value `prod`. -/
theorem mutate_patch_of_prod (lib : Library) (ar : AdmissionReview)
    (req : AdmissionRequest) (deployment : Deployment) (hreq : ar.Request = some req)
    (hobj : lib.unmarshalDeployment req.Object.Raw = .ok deployment)
    (hprod : equalIgnoringCase (mapIndex deployment.GetAnnotations prodKey) "true" = true) :
    ∃ resp, mutate lib ar = .ok resp ∧
      resp.Allowed = true ∧
      resp.PatchType = some PatchType.JSONPatch ∧
      resp.Patch = bytesOfString setProdLabelPatch ∧
      readJSON resp.Patch = some addLabelPatch ∧
      readJSON (bytesOfString specPatchPayload) = some addLabelPatch := by
  have hlow := (toLower_eq_true_iff _).mpr hprod
  refine ⟨_, mutate_of_unmarshal_ok lib ar req deployment hreq hobj, ?_⟩
  rw [if_pos hlow]
  exact ⟨rfl, rfl, rfl, rfl, rfl⟩

/-- C4, witness: the sample deployment annotated `TRUE`. -/
theorem mutate_patch_of_prod_witness :
    ∃ resp, mutate sampleLibrary (reviewOf prodObject) = .ok resp ∧
      resp.Allowed = true ∧
      resp.PatchType = some PatchType.JSONPatch ∧
      resp.Patch = bytesOfString setProdLabelPatch ∧
      readJSON resp.Patch = some addLabelPatch ∧
      readJSON (bytesOfString specPatchPayload) = some addLabelPatch :=
  mutate_patch_of_prod sampleLibrary (reviewOf prodObject)
    { UID := "X", Object := { Raw := prodObject } } prodDeployment rfl rfl (by decide)

/-- C5 (as amended): for every review whose object unmarshals and whose
annotation `tunde.meetup.com/prod` is not case-insensitively equal to `true`,
an absent key included, the response of `mutate` is not allowed and has no
patch, and its patch type is set to JSONPatch, as on every response of
`mutate` for an object that unmarshals. -/
theorem mutate_denied_has_no_patch (lib : Library) (ar : AdmissionReview)
    (req : AdmissionRequest) (deployment : Deployment) (hreq : ar.Request = some req)
    (hobj : lib.unmarshalDeployment req.Object.Raw = .ok deployment)
    (hprod : equalIgnoringCase (mapIndex deployment.GetAnnotations prodKey) "true" = false) :
    ∃ resp, mutate lib ar = .ok resp ∧
      resp.Allowed = false ∧ resp.Patch = [] ∧
      resp.PatchType = some PatchType.JSONPatch := by
  have hlow : ¬ ToLower (mapIndex deployment.GetAnnotations prodKey) = "true" := by
    rw [toLower_eq_true_iff, hprod]
    decide
  refine ⟨_, mutate_of_unmarshal_ok lib ar req deployment hreq hobj, ?_⟩
  rw [if_neg hlow]
  exact ⟨rfl, rfl, rfl⟩

/-- C5, witness: the sample deployment without annotations. -/
theorem mutate_denied_has_no_patch_witness :
    ∃ resp, mutate sampleLibrary (reviewOf plainObject) = .ok resp ∧
      resp.Allowed = false ∧ resp.Patch = [] ∧
      resp.PatchType = some PatchType.JSONPatch :=
  mutate_denied_has_no_patch sampleLibrary (reviewOf plainObject)
    { UID := "X", Object := { Raw := plainObject } } plainDeployment rfl rfl (by decide)

/-- C5 (as stated) fails: for the sample deployment without annotations the
response of `mutate` has its patch type set, so not every such response has
no patch type. -/
theorem mutate_denied_sets_patch_type :
    ¬ ∀ (lib : Library) (ar : AdmissionReview) (req : AdmissionRequest)
        (deployment : Deployment),
      ar.Request = some req → lib.unmarshalDeployment req.Object.Raw = .ok deployment →
      equalIgnoringCase (mapIndex deployment.GetAnnotations prodKey) "true" = false →
      ∃ resp, mutate lib ar = .ok resp ∧
        resp.Allowed = false ∧ resp.Patch = [] ∧ resp.PatchType = none := by
  intro h
  obtain ⟨resp, hresp, _, _, htype⟩ := h sampleLibrary (reviewOf plainObject)
    { UID := "X", Object := { Raw := plainObject } } plainDeployment rfl rfl (by decide)
  have hmutate : mutate sampleLibrary (reviewOf plainObject)
      = .ok { Allowed := false, PatchType := some PatchType.JSONPatch } := rfl
  rw [hmutate] at hresp
  cases hresp
  cases htype

/-- C6: every response the program produces, by `validate`, by `mutate`, by the
decode failure branch of `serve`, or within an envelope of `serve`, satisfies
the patch invariant: a non-empty patch comes with patch type JSONPatch and
with allowed true; so no response that is not allowed carries a patch. -/
theorem patch_invariant_of_produced (lib : Library) (ar : AdmissionReview)
    (resp : AdmissionResponse)
    (h : validate lib ar = .ok resp ∨ mutate lib ar = .ok resp ∨
      (∃ err, resp = decodeFailure err) ∨
      ∃ w r env, (serve lib w r).admissionReview = some env ∧ env.Response = some resp) :
    PatchInvariant resp ∧ (resp.Allowed = false → resp.Patch = []) := by
  have key : ∀ resp0 : AdmissionResponse,
      (resp0.Patch = [] ∨ (resp0.PatchType = some PatchType.JSONPatch ∧ resp0.Allowed = true)) →
      resp.Allowed = resp0.Allowed → resp.Patch = resp0.Patch →
      resp.PatchType = resp0.PatchType →
      PatchInvariant resp ∧ (resp.Allowed = false → resp.Patch = []) := by
    intro resp0 hcases ha hp ht
    unfold PatchInvariant
    rw [ha, hp, ht]
    rcases hcases with hnil | ⟨htype, hallowed⟩
    · exact ⟨fun hne => absurd hnil hne, fun _ => hnil⟩
    · exact ⟨fun _ => ⟨htype, hallowed⟩, fun hfalse => by rw [hallowed] at hfalse; cases hfalse⟩
  have origin : ∀ (ar0 : AdmissionReview) (resp0 : AdmissionResponse),
      (mutate lib ar0 = .ok resp0 ∨ validate lib ar0 = .ok resp0 ∨
        ∃ err, resp0 = decodeFailure err) →
      resp0.Patch = [] ∨ (resp0.PatchType = some PatchType.JSONPatch ∧ resp0.Allowed = true) := by
    intro ar0 resp0 h0
    rcases h0 with hm | hv | ⟨err, rfl⟩
    · exact mutate_patch_cases lib ar0 resp0 hm
    · exact Or.inl (validate_patch_nil lib ar0 resp0 hv).1
    · exact Or.inl rfl
  rcases h with hv | hm | hd | ⟨w, r, env, henv, hresp⟩
  · exact key resp (origin ar resp (Or.inr (Or.inl hv))) rfl rfl rfl
  · exact key resp (origin ar resp (Or.inl hm)) rfl rfl rfl
  · exact key resp (origin ar resp (Or.inr (Or.inr hd))) rfl rfl rfl
  · obtain ⟨ar0, resp0, h0, ha, _, hp, ht⟩ := serve_response_origin lib w r env resp henv hresp
    exact key resp0 (origin ar0 resp0 h0) ha hp ht

/-- C6, witness: the response of `mutate` for the sample deployment annotated
`TRUE`, which carries a patch. -/
theorem patch_invariant_of_produced_witness :
    mutate sampleLibrary (reviewOf prodObject) =
        .ok { Allowed := true, Result := some { Message := "demo gods are with you" },
              Patch := bytesOfString setProdLabelPatch,
              PatchType := some PatchType.JSONPatch } ∧
      PatchInvariant { Allowed := true, Result := some { Message := "demo gods are with you" },
                       Patch := bytesOfString setProdLabelPatch,
                       PatchType := some PatchType.JSONPatch } ∧
      ((true = false) → bytesOfString setProdLabelPatch = []) ∧
      bytesOfString setProdLabelPatch ≠ [] :=
  ⟨rfl,
    (patch_invariant_of_produced sampleLibrary (reviewOf prodObject) _ (Or.inr (Or.inl rfl))).1,
    (patch_invariant_of_produced sampleLibrary (reviewOf prodObject) _ (Or.inr (Or.inl rfl))).2,
    bytesOfString_patch_ne_nil⟩

/-- C7: on a writer that has sent no header, `serve` answers with status 400
when the body is missing, unreadable or empty, whatever the content type and
the path, and with status 415 when the body is non-empty and the content type
is not exactly `application/json`. In both cases the only call made is the
error reply: the decoder, `validate`, `mutate`, the encoder and the write of
an envelope are not called, and no envelope is assembled. -/
theorem serve_rejects_before_decode (lib : Library) (w : ResponseWriter) (r : Request)
    (hw : w.status = none) :
    ((r.Body = none ∨ (∃ err, r.Body = some (.error err)) ∨ r.Body = some (.ok [])) →
      (serve lib w r).w.status = some 400 ∧
      (serve lib w r).calls = [.Error "empty body" 400] ∧
      (serve lib w r).admissionReview = none ∧ (serve lib w r).fault = none) ∧
    (∀ data, r.Body = some (.ok data) → data ≠ [] →
      r.Header.Get "Content-Type" ≠ "application/json" →
      (serve lib w r).w.status = some 415 ∧
      (serve lib w r).calls = [.Error "invalid Content-Type, expect `application/json`" 415] ∧
      (serve lib w r).admissionReview = none ∧ (serve lib w r).fault = none) := by
  constructor
  · intro hbody
    have hread : readBody r = [] := by
      unfold readBody
      rcases hbody with h | ⟨err, h⟩ | h <;> simp [h]
    simp only [serve, hread, List.length_nil, if_true, httpError_status, hw, Option.getD_none,
      and_self]
  · intro data hbody hne hct
    have hlen : ¬ data.length = 0 := fun h => hne (List.length_eq_zero.mp h)
    simp only [serve, readBody, hbody, hlen, hct, if_false, ne_eq, not_false_eq_true, if_true,
      httpError_status, hw, Option.getD_none, and_self]

/-- C7, witness: an empty body and a body with content type `text/plain`. -/
theorem serve_rejects_before_decode_witness :
    ((serve sampleLibrary {} (requestOf [] "application/json" "/validate")).w.status = some 400 ∧
      (serve sampleLibrary {} (requestOf [] "application/json" "/validate")).calls
        = [.Error "empty body" 400]) ∧
    ((serve sampleLibrary {} (requestOf plainBody "text/plain" "/validate")).w.status = some 415 ∧
      (serve sampleLibrary {} (requestOf plainBody "text/plain" "/validate")).calls
        = [.Error "invalid Content-Type, expect `application/json`" 415]) := by
  have h400 := (serve_rejects_before_decode sampleLibrary {}
    (requestOf [] "application/json" "/validate") rfl).1 (Or.inr (Or.inr rfl))
  have h415 := (serve_rejects_before_decode sampleLibrary {}
    (requestOf plainBody "text/plain" "/validate") rfl).2 plainBody rfl (by decide) (by decide)
  exact ⟨⟨h400.1, h400.2.1⟩, ⟨h415.1, h415.2.1⟩⟩

/-- C8: for every request with a non-empty body and content type
`application/json` whose body does not decode, on any path, `serve` calls
neither `validate` nor `mutate` and assembles an envelope whose response is
not allowed and has as result message the text of the decode error, non-empty
when that text is. When the encoder gives the bytes of this envelope, the
status sent on a writer without a header is 200, the bytes are written, and
on a connection that is not broken they are the body. -/
theorem serve_reports_decode_failure (lib : Library) (w : ResponseWriter) (r : Request)
    (data : Bytes) (ar : AdmissionReview) (err : String)
    (hbody : r.Body = some (.ok data)) (hne : data ≠ [])
    (hct : r.Header.Get "Content-Type" = "application/json")
    (hdec : lib.decode data = (ar, some err)) (hw : w.status = none) :
    ∃ resp, (serve lib w r).admissionReview = some { Response := some resp } ∧
      resp.Allowed = false ∧ resp.Result = some { Message := err } ∧
      (err ≠ "" → ∃ st, resp.Result = some st ∧ st.Message ≠ "") ∧
      (∀ c ∈ (serve lib w r).calls, (∀ a, c ≠ .mutate a) ∧ (∀ a, c ≠ .validate a)) ∧
      (serve lib w r).fault = none ∧
      (∀ bytes, lib.marshal { Response := some resp } = .ok bytes →
        (serve lib w r).w.status = some 200 ∧
        Call.Write bytes ∈ (serve lib w r).calls ∧
        (w.broken = none →
          (serve lib w r).w.body = w.body ++ bytes ∧
          (serve lib w r).calls =
            [.Decode data, .Marshal { Response := some resp }, .Write bytes])) := by
  have hroute : route lib r.URL.Path ar (some err) = (.ok (some (decodeFailure err)), []) := rfl
  have hserve := serve_admissionReview lib w r data ar (some err) (some (decodeFailure err)) []
    hbody hne hct hdec hroute
  have hassemble : ∃ resp, assemble ar (some (decodeFailure err)) = { Response := some resp } ∧
      resp.Allowed = false ∧ resp.Result = some { Message := err } := by
    unfold assemble
    cases hreq : ar.Request with
    | none => exact ⟨_, rfl, rfl, rfl⟩
    | some req => exact ⟨_, rfl, rfl, rfl⟩
  obtain ⟨resp, hresp, hallowed, hresult⟩ := hassemble
  rw [hresp] at hserve
  rw [hserve]
  refine ⟨resp, rfl, hallowed, hresult, ?_, ?_, rfl, ?_⟩
  · intro herr
    exact ⟨_, hresult, herr⟩
  · intro c hc
    simp only [List.append_nil, List.cons_append, List.nil_append, List.mem_cons] at hc
    rcases hc with rfl | hc
    · exact ⟨fun _ h => (nomatch h), fun _ h => (nomatch h)⟩
    · have := encodeAndWrite_calls lib w _ c hc
      exact ⟨this.1, this.2.1⟩
  · intro bytes hm
    simp only [encodeAndWrite_of_marshal_ok lib w _ bytes hm]
    have hst := writeResponse_status w bytes
    refine ⟨by rw [hst.1, hw]; rfl, ?_, ?_⟩
    · simp only [List.append_nil, List.cons_append, List.nil_append, List.mem_cons]
      exact Or.inr (Or.inr hst.2.1)
    · intro hb
      have hsound := writeResponse_of_sound w bytes hb
      exact ⟨hsound.1, by rw [hsound.2]; rfl⟩

/-- C8, witness: the body that is not JSON, sent to `/validate`. -/
theorem serve_reports_decode_failure_witness :
    ∃ resp, (serve sampleLibrary {}
        (requestOf malformedBody "application/json" "/validate")).admissionReview
          = some { Response := some resp } ∧
      resp.Allowed = false ∧
      resp.Result = some { Message := "couldn't get version/kind; json parse error" } := by
  obtain ⟨resp, h1, h2, h3, _⟩ := serve_reports_decode_failure sampleLibrary {}
    (requestOf malformedBody "application/json" "/validate") malformedBody {}
    "couldn't get version/kind; json parse error" rfl (by decide) (by decide) (by decide) rfl
  exact ⟨resp, h1, h2, h3⟩

/-- C9: whenever the encoding of the outbound envelope fails in `serve`, the
answer is the error reply with status 500 and the text of the encode error,
and no body is written afterward: the writer is left exactly as the error
reply leaves it, so on a writer without a header the status is 500 and on a
connection that is not broken the body sent is the error text and nothing
more. The one write call that follows the error reply carries the nil `resp`,
which sends nothing. -/
theorem serve_encode_failure_reply (lib : Library) (w : ResponseWriter) (r : Request)
    (env : AdmissionReview) (err : String)
    (henv : (serve lib w r).admissionReview = some env)
    (hm : lib.marshal env = .error err) :
    (serve lib w r).w = httpError w ("could not encode response: " ++ err) 500 ∧
      (w.status = none → (serve lib w r).w.status = some 500) ∧
      (w.broken = none → (serve lib w r).w.body =
        w.body ++ bytesOfString (("could not encode response: " ++ err) ++ "\n")) ∧
      Call.Error ("could not encode response: " ++ err) 500 ∈ (serve lib w r).calls ∧
      (∀ d, Call.Write d ∈ (serve lib w r).calls → d = []) := by
  obtain ⟨calls, hserve, hcalls⟩ := serve_of_envelope lib w r env henv
  have hsent : (httpError w ("could not encode response: " ++ err) 500).status
      = some (w.status.getD 500) := httpError_status w _ 500
  have hwrite := writeResponse_nil_of_sent _ _ hsent
  have henc := encodeAndWrite_of_marshal_error lib w env err hm
  rw [hwrite] at henc
  rw [hserve, henc]
  refine ⟨rfl, ?_, ?_, ?_, ?_⟩
  · intro hw
    simp only [hsent, hw, Option.getD_none]
  · intro hb
    exact httpError_body_of_sound w _ 500 hb
  · simp
  · intro d hd
    simp only [List.cons_append, List.nil_append, List.mem_append, List.mem_cons,
      List.mem_singleton, List.not_mem_nil, or_false] at hd
    rcases hd with hd | hd | hd | hd | hd
    · cases hd
    · rcases hcalls _ hd with ⟨a, h⟩ | ⟨a, h⟩ <;> cases h
    · cases hd
    · cases hd
    · cases hd
      rfl

/-- C9, witness: the sample review sent to `/validate` with an encoder that
fails. -/
theorem serve_encode_failure_reply_witness :
    (serve failingEncoder {} (requestOf plainBody "application/json" "/validate")).w.status
        = some 500 ∧
      (serve failingEncoder {} (requestOf plainBody "application/json" "/validate")).w.body
        = bytesOfString "could not encode response: json: unsupported value\n" ∧
      (∀ d, Call.Write d ∈
          (serve failingEncoder {} (requestOf plainBody "application/json" "/validate")).calls →
        d = []) := by
  have h := serve_encode_failure_reply failingEncoder {}
    (requestOf plainBody "application/json" "/validate")
    { Response := some { UID := "X"
                         Allowed := false
                         Result := some { Message := "Name has to be dallas demo or you go home" } } }
    "json: unsupported value" (by decide) rfl
  exact ⟨h.2.1 rfl, h.2.2.1 rfl, h.2.2.2.2⟩

/-- C10: for every review with a request whose object does not unmarshal,
`validate` and `mutate` both return, without a fault, a response that is not
allowed, has as result message the text of the unmarshal error, and has no
patch and no patch type. -/
theorem unmarshal_failure_is_reported (lib : Library) (ar : AdmissionReview)
    (req : AdmissionRequest) (err : String) (hreq : ar.Request = some req)
    (hobj : lib.unmarshalDeployment req.Object.Raw = .error err) :
    ∃ resp, validate lib ar = .ok resp ∧ mutate lib ar = .ok resp ∧
      resp.Allowed = false ∧ resp.Result = some { Message := err } ∧
      resp.Patch = [] ∧ resp.PatchType = none :=
  ⟨_, validate_of_unmarshal_error lib ar req err hreq hobj,
    mutate_of_unmarshal_error lib ar req err hreq hobj, rfl, rfl, rfl, rfl⟩

/-- C10, witness: the sample object that ends too early. -/
theorem unmarshal_failure_is_reported_witness :
    ∃ resp, validate sampleLibrary (reviewOf brokenObject) = .ok resp ∧
      mutate sampleLibrary (reviewOf brokenObject) = .ok resp ∧
      resp.Allowed = false ∧ resp.Result = some { Message := "unexpected end of JSON input" } ∧
      resp.Patch = [] ∧ resp.PatchType = none :=
  unmarshal_failure_is_reported sampleLibrary (reviewOf brokenObject)
    { UID := "X", Object := { Raw := brokenObject } } "unexpected end of JSON input" rfl rfl

/-- C11: no patch is produced in validation mode: for every review with a
request, whether or not its object unmarshals and whatever the name, `validate`
returns a response with an empty patch and no patch type. -/
theorem validate_never_patches (lib : Library) (ar : AdmissionReview)
    (req : AdmissionRequest) (hreq : ar.Request = some req) :
    ∃ resp, validate lib ar = .ok resp ∧ resp.Patch = [] ∧ resp.PatchType = none := by
  obtain ⟨resp, hresp⟩ := validate_returns lib ar req hreq
  exact ⟨resp, hresp, validate_patch_nil lib ar resp hresp⟩

/-- C11, witness: the sample deployment named `dallas-demo`, which is allowed. -/
theorem validate_never_patches_witness :
    ∃ resp, validate sampleLibrary (reviewOf prodObject) = .ok resp ∧
      resp.Patch = [] ∧ resp.PatchType = none :=
  validate_never_patches sampleLibrary (reviewOf prodObject)
    { UID := "X", Object := { Raw := prodObject } } rfl

/-- C12: for every request with a non-empty body, content type
`application/json` and a body that decodes, on a path that is neither `/mutate`
nor `/validate`, `serve` calls neither `validate` nor `mutate` and assembles an
envelope whose response is nil, so that no UID is echoed. When the encoder
gives the bytes of this envelope, the status sent on a writer without a header
is 200, the bytes are written, and on a connection that is not broken they are
the body. -/
theorem serve_unknown_path_empty_envelope (lib : Library) (w : ResponseWriter) (r : Request)
    (data : Bytes) (ar : AdmissionReview)
    (hbody : r.Body = some (.ok data)) (hne : data ≠ [])
    (hct : r.Header.Get "Content-Type" = "application/json")
    (hdec : lib.decode data = (ar, none))
    (hmutate : r.URL.Path ≠ "/mutate") (hvalidate : r.URL.Path ≠ "/validate")
    (hw : w.status = none) :
    (serve lib w r).admissionReview = some { Request := none, Response := none } ∧
      (∀ c ∈ (serve lib w r).calls, (∀ a, c ≠ .mutate a) ∧ (∀ a, c ≠ .validate a)) ∧
      (serve lib w r).fault = none ∧
      (∀ bytes, lib.marshal { Request := none, Response := none } = .ok bytes →
        (serve lib w r).w.status = some 200 ∧
        Call.Write bytes ∈ (serve lib w r).calls ∧
        (w.broken = none →
          (serve lib w r).w.body = w.body ++ bytes ∧
          (serve lib w r).calls =
            [.Decode data, .Marshal { Request := none, Response := none }, .Write bytes])) := by
  have hroute : route lib r.URL.Path ar none = (.ok none, []) := by
    simp only [route, hmutate, hvalidate, if_false]
  have hserve := serve_admissionReview lib w r data ar none none [] hbody hne hct hdec hroute
  have hassemble : assemble ar none = { Request := none, Response := none } := rfl
  rw [hassemble] at hserve
  rw [hserve]
  refine ⟨rfl, ?_, rfl, ?_⟩
  · intro c hc
    simp only [List.append_nil, List.cons_append, List.nil_append, List.mem_cons] at hc
    rcases hc with rfl | hc
    · exact ⟨fun _ h => (nomatch h), fun _ h => (nomatch h)⟩
    · have := encodeAndWrite_calls lib w _ c hc
      exact ⟨this.1, this.2.1⟩
  · intro bytes hm
    simp only [encodeAndWrite_of_marshal_ok lib w _ bytes hm]
    have hst := writeResponse_status w bytes
    refine ⟨by rw [hst.1, hw]; rfl, ?_, ?_⟩
    · simp only [List.append_nil, List.cons_append, List.nil_append, List.mem_cons]
      exact Or.inr (Or.inr hst.2.1)
    · intro hb
      have hsound := writeResponse_of_sound w bytes hb
      exact ⟨hsound.1, by rw [hsound.2]; rfl⟩

/-- C12, witness: the sample review sent to the path `/healthz`. -/
theorem serve_unknown_path_empty_envelope_witness :
    (serve sampleLibrary {} (requestOf plainBody "application/json" "/healthz")).admissionReview
        = some { Request := none, Response := none } ∧
      (serve sampleLibrary {} (requestOf plainBody "application/json" "/healthz")).w.status
        = some 200 ∧
      (serve sampleLibrary {} (requestOf plainBody "application/json" "/healthz")).calls
        = [.Decode plainBody, .Marshal { Request := none, Response := none },
           .Write (bytesOfString "\x7b\x7d")] := by
  have h := serve_unknown_path_empty_envelope sampleLibrary {}
    (requestOf plainBody "application/json" "/healthz") plainBody (reviewOf plainObject)
    rfl (by decide) (by decide) (by decide) (by decide) (by decide) rfl
  have h2 := h.2.2.2 (bytesOfString "\x7b\x7d") rfl
  exact ⟨h.1, h2.1, (h2.2.2 rfl).2⟩

/-- C13: what the code does on a review without a request. The body
`bareBody` decodes to a review whose request is nil; on `/validate` and on
`/mutate` the run of `serve` ends in a nil dereference inside `validate` and
`mutate`, with no envelope assembled and nothing sent. -/
theorem serve_faults_without_request :
    validate bareLibrary {} = .error .nilDereference ∧
    mutate bareLibrary {} = .error .nilDereference ∧
    serve bareLibrary {} (requestOf bareBody "application/json" "/validate") =
      { w := {}
        calls := [.Decode bareBody, .validate {}]
        admissionReview := none
        fault := some .nilDereference } ∧
    serve bareLibrary {} (requestOf bareBody "application/json" "/mutate") =
      { w := {}
        calls := [.Decode bareBody, .mutate {}]
        admissionReview := none
        fault := some .nilDereference } := by
  refine ⟨rfl, rfl, ?_, ?_⟩ <;> decide

end Webhook
